import Mathlib

/-!
Verification development for the ksau-py chunked-upload engine.

The definitions below are a shallow embedding of the Python sources:
  * `src/ksau_py/ksau_api.py`      (token fetch, session creation, size-driven chunk loop)
  * `src/ksau_py/commands/upload.py` (upload command, handler, hash pass, content-driven chunk loop)
  * `src/ksau_py/commands/retarded_graph.py` and `src/ksau_py/ms_graph_util.py`
File bytes are `List Nat`, machine integers are `Nat`/`Int`/`ℚ` with exact
arithmetic, network transports are oracle functions returning the response
the code would observe, and fallible code returns `Except`.
-/

/-- An HTTP response as the upload code observes it: aiohttp's `response.ok`
(true exactly for a successful status class), `response.status`, and the body
text returned by `response.text()`. -/
structure HttpResponse where
  ok : Bool
  status : Nat
  body : String
deriving DecidableEq, Repr

/-- Ceiling division `ceil(S / C)` on naturals, written `(S + C - 1) / C`. -/
def ceilDiv (S C : Nat) : Nat := (S + C - 1) / C

/-- One chunk byte range: start offset, exclusive end (the source's `chunk_end`),
and the `Content-Range` header value sent for it. -/
structure ChunkRange where
  start : Nat
  stop : Nat
  contentRange : String
deriving DecidableEq, Repr

/-- The source's f-string `f"bytes {uploaded}-{chunk_end - 1}/{file_size}"`
(upload.py line 134, ksau_api.py line 97). -/
def contentRangeStr (uploaded chunkEnd fileSize : Nat) : String :=
  "bytes " ++ toString uploaded ++ "-" ++ toString (chunkEnd - 1) ++ "/" ++ toString fileSize

/-- The cursor loop of `ksau_api.upload_file_in_chunks` (ksau_api.py lines 89-118),
restricted to its byte-range bookkeeping: while `uploaded < file_size`, emit the
range `[uploaded, chunk_end)` with `chunk_end = min(uploaded + chunk_size, file_size)`
together with its Content-Range header, then advance the cursor to `chunk_end`.
The guard also carries `0 < chunkSize`: for `chunk_size = 0` the Python loop never
terminates, and every claim about the loop fixes a positive chunk size. -/
def chunkRangesAux (chunkSize fileSize uploaded : Nat) : List ChunkRange :=
  if h : uploaded < fileSize ∧ 0 < chunkSize then
    ⟨uploaded, min (uploaded + chunkSize) fileSize,
        contentRangeStr uploaded (min (uploaded + chunkSize) fileSize) fileSize⟩ ::
      chunkRangesAux chunkSize fileSize (min (uploaded + chunkSize) fileSize)
  else []
termination_by fileSize - uploaded
decreasing_by
  omega

/-- The full sequence of chunk byte ranges produced for a file of `fileSize` bytes
uploaded with chunks of `chunkSize` bytes (cursor starts at 0). -/
def chunkRanges (chunkSize fileSize : Nat) : List ChunkRange :=
  chunkRangesAux chunkSize fileSize 0

/-- The generating function of the chunk-range sequence: chunk `i` covers
`[i*C, min ((i+1)*C) S)`. -/
def chunkRangeAt (C S i : Nat) : ChunkRange :=
  ⟨i * C, min ((i + 1) * C) S, contentRangeStr (i * C) (min ((i + 1) * C) S) S⟩

/-- Python's `round()`: round half to even, on exact rationals. -/
def pyRound (q : ℚ) : ℤ :=
  if q - ⌊q⌋ < 1 / 2 then ⌊q⌋
  else if (1 : ℚ) / 2 < q - ⌊q⌋ then ⌊q⌋ + 1
  else if 2 ∣ ⌊q⌋ then ⌊q⌋ else ⌊q⌋ + 1

/-- One chunk as actually PUT on the wire by `upload.py`'s loop: its byte range,
the bytes sent as the request body, and the Content-Range header. -/
structure SentChunk where
  start : Nat
  stop : Nat
  data : List Nat
  contentRange : String
deriving DecidableEq, Repr

/-- Everything observable about one run of `upload.py`'s
`upload_file_in_chunks`: the chunk PUTs issued in order, the bytes fed to the
QuickXor hash accumulator in order, the values passed to `on_progress` in
order, and the result (success, or the raised error's message). -/
structure UploadOutcome where
  sent : List SentChunk
  hashedBytes : List Nat
  progressCalls : List ℤ
  result : Except String Unit
deriving Repr

/-- The error message raised for a failed chunk PUT, upload.py line 142
(ksau_api.py line 113 raises the identical text):
`f"Failed to upload chunk {content_range}, status: {response.status}, error: {error_text}"`. -/
def chunkErrorMsg (cr : String) (resp : HttpResponse) : String :=
  "Failed to upload chunk " ++ cr ++ ", status: " ++ toString resp.status ++
    ", error: " ++ resp.body

/-- The chunk loop of `upload.py`'s `upload_file_in_chunks` (lines 131-151) over
the file's byte content, starting from cursor `uploaded`:
`while chunk := f.read(chunk_size)` reads the next `chunk_size` bytes;
`chunk_end = min(uploaded + chunk_size, file_size)`; the chunk is PUT with its
Content-Range header; a non-ok response raises and ends the loop, otherwise the
chunk is fed to the hash, the cursor advances to `chunk_end`, and `on_progress`
receives `round(uploaded / file_size * 100)`. `transport` maps a chunk's start
offset to the HTTP response its PUT receives. -/
def uploadLoop (transport : Nat → HttpResponse) (chunkSize : Nat) (content : List Nat)
    (uploaded : Nat) : UploadOutcome :=
  if h : (content.drop uploaded).take chunkSize ≠ [] then
    if (transport uploaded).ok then
      { sent := ⟨uploaded, min (uploaded + chunkSize) content.length,
            (content.drop uploaded).take chunkSize,
            contentRangeStr uploaded (min (uploaded + chunkSize) content.length)
              content.length⟩ ::
          (uploadLoop transport chunkSize content
            (min (uploaded + chunkSize) content.length)).sent
        hashedBytes := (content.drop uploaded).take chunkSize ++
          (uploadLoop transport chunkSize content
            (min (uploaded + chunkSize) content.length)).hashedBytes
        progressCalls := pyRound (((min (uploaded + chunkSize) content.length : ℚ) /
            (content.length : ℚ)) * 100) ::
          (uploadLoop transport chunkSize content
            (min (uploaded + chunkSize) content.length)).progressCalls
        result := (uploadLoop transport chunkSize content
          (min (uploaded + chunkSize) content.length)).result }
    else
      { sent := [⟨uploaded, min (uploaded + chunkSize) content.length,
            (content.drop uploaded).take chunkSize,
            contentRangeStr uploaded (min (uploaded + chunkSize) content.length)
              content.length⟩]
        hashedBytes := []
        progressCalls := []
        result := Except.error (chunkErrorMsg
          (contentRangeStr uploaded (min (uploaded + chunkSize) content.length)
            content.length) (transport uploaded)) }
  else
    { sent := [], hashedBytes := [], progressCalls := [], result := Except.ok () }
termination_by content.length - uploaded
decreasing_by
  rw [ne_eq, List.take_eq_nil_iff, not_or, ← ne_eq, ← ne_eq] at h
  have h1 : uploaded < content.length := by
    rcases h with ⟨-, h2⟩
    rw [ne_eq, List.drop_eq_nil_iff] at h2
    omega
  rcases h with ⟨h0, -⟩
  omega

/-- The chunk loop run from offset 0 with an explicit chunk size in bytes:
the shared core of both `upload_file_in_chunks` variants. -/
def uploadChunks (transport : Nat → HttpResponse) (chunkSize : Nat)
    (content : List Nat) : UploadOutcome :=
  uploadLoop transport chunkSize content 0

/-- `upload.py`'s `upload_file_in_chunks` (lines 122-151):
`chunk_size = chunk_size_mb * 1024 * 1024`, then the chunk loop from offset 0.
The external QuickXor accumulator is represented by the exact byte sequence fed
to it (`hashedBytes`); its digest is any function of those bytes. -/
def upload_file_in_chunks (transport : Nat → HttpResponse) (chunkSizeMB : Nat)
    (content : List Nat) : UploadOutcome :=
  uploadChunks transport (chunkSizeMB * 1024 * 1024) content

/-- The sequential read loop `while chunk := f.read(blockSize)` shared by
`compute_local_quickxorhash` (block size 320*1024, upload.py line 113) and
`retarded_graph.upload_async` (block size 327680, line 85): returns the list of
chunks read; the file position advances by the bytes actually read. -/
def readChunksAux (blockSize : Nat) (content : List Nat) (pos : Nat) : List (List Nat) :=
  if h : (content.drop pos).take blockSize ≠ [] then
    (content.drop pos).take blockSize ::
      readChunksAux blockSize content (pos + ((content.drop pos).take blockSize).length)
  else []
termination_by content.length - pos
decreasing_by
  have h2 : 0 < ((content.drop pos).take blockSize).length := List.length_pos.mpr h
  have h1 : pos < content.length := by
    rw [ne_eq, List.take_eq_nil_iff, not_or, ← ne_eq, ← ne_eq] at h
    rcases h with ⟨-, h3⟩
    rw [ne_eq, List.drop_eq_nil_iff] at h3
    omega
  omega

/-- `compute_local_quickxorhash` (upload.py lines 108-119): a separate read pass
in 320 KiB blocks, feeding each block to a fresh QuickXor accumulator; we record
the full byte sequence fed to the accumulator. -/
def compute_local_quickxorhash (content : List Nat) : List Nat :=
  (readChunksAux (320 * 1024) content 0).flatten

/-- Python's `str.strip(c)` for a single character: remove every leading and
every trailing occurrence of `c` (used as `remote_path.strip("/")` in
upload.py line 66 and `upload_root_path.strip('/')` in ksau_api.py line 58).
Strings handled by the path logic are `List Char`. -/
def pyStrip (c : Char) (s : List Char) : List Char :=
  ((s.dropWhile (fun a => a = c)).reverse.dropWhile (fun a => a = c)).reverse

/-- Python's `str.rstrip(c)`: remove every trailing occurrence of `c`
(used as `token.base_url.rstrip("/")` in upload.py line 90). -/
def pyRstrip (c : Char) (s : List Char) : List Char :=
  (s.reverse.dropWhile (fun a => a = c)).reverse

/-- upload.py lines 66-70: `remote_dir = remote_path.strip("/")`;
`final_remote_path = f"{remote_dir}/{new_name}" if remote_dir else new_name`,
where `new_name = local_file.stem + local_file.suffix` is the file's base name. -/
def finalRemotePath (remotePath fileName : List Char) : List Char :=
  if pyStrip '/' remotePath = [] then fileName
  else pyStrip '/' remotePath ++ '/' :: fileName

/-- ksau_api.py line 58: the fully-qualified path handed to session creation,
`clean_path = f"{upload_root_path.strip('/')}/{remote_file_path}"`. -/
def cleanPath (uploadRootPath remoteFilePath : List Char) : List Char :=
  pyStrip '/' uploadRootPath ++ '/' :: remoteFilePath

/-- True when the string contains two adjacent `'/'` characters. -/
def hasDoubleSep : List Char → Bool
  | a :: b :: t => (a = '/' && b = '/') || hasDoubleSep (b :: t)
  | _ => false

/-- True when splitting the string on `'/'` yields an empty segment: the string
is empty, starts with `'/'`, ends with `'/'`, or contains `"//"`. -/
def hasEmptySegment (p : List Char) : Bool :=
  p.isEmpty || p.head? = some '/' || p.getLast? = some '/' || hasDoubleSep p

/-- The `TokenResponse` dataclass of ksau_api.py (lines 30-40); the two path
fields used by the handler are `List Char` like all path strings here. -/
structure TokenResponseModel where
  access_token : String
  refresh_token : String
  expires_in : Nat
  client_id : String
  client_secret : String
  drive_id : String
  drive_type : String
  base_url : List Char
  upload_root_path : List Char

/-- The external services one `upload_handler` run talks to: the token
endpoint's response and (when ok) parsed payload, the session-creation
response and (when ok) its `uploadUrl`, and the per-chunk PUT responses
keyed by chunk start offset. -/
structure HandlerOracle where
  tokenResp : HttpResponse
  tokenData : TokenResponseModel
  sessionResp : HttpResponse
  sessionUploadUrl : String
  putResp : Nat → HttpResponse

/-- A network request issued by the handler, in issue order. -/
inductive ApiRequest where
  | tokenFetch (remote : String)
  | createSession (cleanedPath : List Char)
  | putChunk (start stop : Nat)
deriving DecidableEq, Repr

/-- `ksau_api.get_upload_token` (lines 42-53): GET the token endpoint; a
non-ok response raises `RuntimeError(f"Failed to get upload token: {error_text}")`,
otherwise the parsed `TokenResponse` is returned. -/
def get_upload_token (o : HandlerOracle) : Except String TokenResponseModel :=
  if o.tokenResp.ok then Except.ok o.tokenData
  else Except.error ("Failed to get upload token: " ++ o.tokenResp.body)

/-- `ksau_api.create_upload_session` (lines 55-80): builds `clean_path`, POSTs
`createUploadSession`; a non-ok response raises
`RuntimeError(f"Failed to create upload session: {error_text}")`, otherwise the
response's `uploadUrl` is returned. The request is issued in either case. -/
def create_upload_session (o : HandlerOracle) (remoteFilePath : List Char) :
    Except String String × List ApiRequest :=
  if o.sessionResp.ok then
    (Except.ok o.sessionUploadUrl,
      [ApiRequest.createSession (cleanPath o.tokenData.upload_root_path remoteFilePath)])
  else
    (Except.error ("Failed to create upload session: " ++ o.sessionResp.body),
      [ApiRequest.createSession (cleanPath o.tokenData.upload_root_path remoteFilePath)])

/-- The observable outcome of one `upload_handler` run: the network requests it
issued in order, and either the download URL it prints or the message of the
exception that aborted it. -/
structure HandlerOutcome where
  requests : List ApiRequest
  result : Except String (List Char)

/-- `upload.py`'s `upload_handler` (lines 54-105) for one file: fetch a token,
build the final remote path, create the upload session, run the local hash pass
(local I/O, no network request), upload in chunks, and on success report the
download URL `base_url.rstrip("/") + "/" + final_remote_path`. Any raised
error is caught by the surrounding `except` block, printed, and turns into
`click.Abort`; `result` carries that error's message. -/
def upload_handler (o : HandlerOracle) (remote : String) (remotePath fileName : List Char)
    (content : List Nat) (chunkSizeMB : Nat) : HandlerOutcome :=
  match get_upload_token o with
  | Except.error e => { requests := [ApiRequest.tokenFetch remote], result := Except.error e }
  | Except.ok token =>
    match create_upload_session o (finalRemotePath remotePath fileName) with
    | (Except.error e, reqs) =>
      { requests := ApiRequest.tokenFetch remote :: reqs, result := Except.error e }
    | (Except.ok _, reqs) =>
      { requests := ApiRequest.tokenFetch remote :: reqs ++
          (upload_file_in_chunks o.putResp chunkSizeMB content).sent.map
            (fun c => ApiRequest.putChunk c.start c.stop)
        result :=
          match (upload_file_in_chunks o.putResp chunkSizeMB content).result with
          | Except.error e => Except.error e
          | Except.ok _ =>
            Except.ok (pyRstrip '/' token.base_url ++ '/' ::
              finalRemotePath remotePath fileName) }

/-- An upload handler run ended in a caught error (the file did not complete). -/
def HandlerOutcome.failed (h : HandlerOutcome) : Bool :=
  match h.result with
  | Except.error _ => true
  | Except.ok _ => false

/-- An oracle under which every external call of one file's upload succeeds. -/
def oracleAllOk (o : HandlerOracle) : Prop :=
  o.tokenResp.ok = true ∧ o.sessionResp.ok = true ∧ ∀ u, (o.putResp u).ok = true

/-- One file of a batch: the remote name, file name, content, and the external
responses its own upload observes. -/
structure FileJob where
  remote : String
  fileName : List Char
  content : List Nat
  oracle : HandlerOracle

/-- The `upload` command (upload.py lines 40-51): one `upload_handler` task per
file; `asyncio.wait` awaits all tasks (`ALL_COMPLETED`), so each file's outcome
is that of its own handler run, independent of its siblings. -/
def uploadBatch (remotePath : List Char) (chunkSizeMB : Nat) (jobs : List FileJob) :
    List HandlerOutcome :=
  jobs.map (fun j => upload_handler j.oracle j.remote remotePath j.fileName j.content chunkSizeMB)

/-- A concrete oracle whose token endpoint answers HTTP 403 "forbidden" and
whose other collaborators would succeed. -/
def oracle403 : HandlerOracle where
  tokenResp := { ok := false, status := 403, body := "forbidden" }
  tokenData :=
    { access_token := "", refresh_token := "", expires_in := 0, client_id := "",
      client_secret := "", drive_id := "", drive_type := "", base_url := [],
      upload_root_path := [] }
  sessionResp := { ok := true, status := 200, body := "" }
  sessionUploadUrl := ""
  putResp := fun _ => { ok := true, status := 200, body := "" }

/-- A concrete oracle under which every external call succeeds. -/
def oracleOk : HandlerOracle where
  tokenResp := { ok := true, status := 200, body := "" }
  tokenData :=
    { access_token := "", refresh_token := "", expires_in := 0, client_id := "",
      client_secret := "", drive_id := "", drive_type := "", base_url := [],
      upload_root_path := [] }
  sessionResp := { ok := true, status := 200, body := "" }
  sessionUploadUrl := "url"
  putResp := fun _ => { ok := true, status := 201, body := "" }

/-- A concrete oracle whose every chunk PUT is refused with status 500. -/
def oraclePutFail : HandlerOracle where
  tokenResp := { ok := true, status := 200, body := "" }
  tokenData :=
    { access_token := "", refresh_token := "", expires_in := 0, client_id := "",
      client_secret := "", drive_id := "", drive_type := "", base_url := [],
      upload_root_path := [] }
  sessionResp := { ok := true, status := 200, body := "" }
  sessionUploadUrl := "url"
  putResp := fun _ => { ok := false, status := 500, body := "boom" }

/-- Concrete batch jobs: two healthy files around one whose chunk PUTs fail. -/
def jobOkA : FileJob := { remote := "oned", fileName := ['a'], content := [1], oracle := oracleOk }

def jobBad : FileJob := { remote := "oned", fileName := ['b'], content := [2], oracle := oraclePutFail }

def jobOkB : FileJob := { remote := "oned", fileName := ['c'], content := [3], oracle := oracleOk }

/-- A chunk PUT as issued by one upload variant; `awaited` records whether the
code awaits the response and checks it before proceeding. -/
structure PutRequest where
  data : List Nat
  awaited : Bool
deriving DecidableEq, Repr

/-- `retarded_graph.upload_chunk` (lines 91-101): under the semaphore it
evaluates `session.put(upload_url, data=chunk)` and returns — the value is
never awaited and the response is never checked. -/
def retarded_upload_chunk (chunk : List Nat) : PutRequest :=
  { data := chunk, awaited := false }

/-- The chunk phase of `retarded_graph.upload_async` (lines 82-88): read
327680-byte blocks and spawn `upload_chunk` for each. -/
def retarded_upload_async_puts (content : List Nat) : List PutRequest :=
  (readChunksAux 327680 content 0).map retarded_upload_chunk

/-- The PUT issued by `upload.py`'s loop for a sent chunk: performed with
`async with session.put(...) as response` and checked via `response.ok`
before the cursor advances. -/
def upload_py_put (c : SentChunk) : PutRequest :=
  { data := c.data, awaited := true }

/-- The names defined at top level in module `ksau_py.ksau_api`
(ksau_api.py lines 24-118). Neither `get_remote_credentials` nor
`RemoteCredentials` is among them. -/
def ksauApiAttrs : List String :=
  ["KSAU_BASE_URL", "ENDPOINTS", "TokenResponse", "get_upload_token",
   "create_upload_session", "upload_file_in_chunks"]

/-- A network request issued by the retarded_graph upload path. -/
inductive GraphRequest where
  | credentialFetch (remote : String)
  | createSession (itemPath : String)
  | putChunk (data : List Nat)
deriving DecidableEq, Repr

/-- `ms_graph_util.get_graph_client` (lines 41-46): the first evaluated
expression is the attribute lookup `ksau_api.get_remote_credentials`; looking
up a name that the module does not define raises `AttributeError` before any
await point, so no network request is issued. (Were the name defined, the
function would fetch credentials and wrap them in a `Client`.) -/
def get_graph_client (remote : String) : Except String Unit × List GraphRequest :=
  if "get_remote_credentials" ∈ ksauApiAttrs then
    (Except.ok (), [GraphRequest.credentialFetch remote])
  else
    (Except.error
      "AttributeError: module ksau_py.ksau_api has no attribute get_remote_credentials",
      [])

/-- `retarded_graph.upload_async` (lines 68-88): missing path and non-file
return exit codes 1; otherwise `get_graph_client` is called, then a session is
created and the chunk tasks are spawned. An uncaught exception from
`get_graph_client` propagates before any of that happens. -/
def upload_async (fileExists isRegularFile : Bool) (remote folder : String)
    (content : List Nat) : Except String Nat × List GraphRequest :=
  if fileExists = false then (Except.ok 1, [])
  else if isRegularFile = false then (Except.ok 1, [])
  else
    match get_graph_client remote with
    | (Except.error e, reqs) => (Except.error e, reqs)
    | (Except.ok _, reqs) =>
      (Except.ok 0,
        reqs ++ GraphRequest.createSession ("root:" ++ folder) ::
          (retarded_upload_async_puts content).map (fun p => GraphRequest.putChunk p.data))

/-- Chunk byte range and header of a sent chunk. -/
def SentChunk.toRange (c : SentChunk) : ChunkRange :=
  ⟨c.start, c.stop, c.contentRange⟩

/-- The progress value reported once a chunk ending at byte `stop` (exclusive)
has been acknowledged, for a file of `S` bytes. -/
def progressValue (S stop : Nat) : ℤ :=
  pyRound (((stop : ℚ) / (S : ℚ)) * 100)

lemma lt_ceilDiv_iff {C : Nat} (hC : 0 < C) {S k : Nat} :
    k < ceilDiv S C ↔ k * C < S := by
  unfold ceilDiv
  rw [show (k < (S + C - 1) / C ↔ k + 1 ≤ (S + C - 1) / C) from Iff.rfl,
    Nat.le_div_iff_mul_le hC, Nat.succ_mul]
  omega

lemma le_ceilDiv_mul {C : Nat} (hC : 0 < C) (S : Nat) : S ≤ ceilDiv S C * C := by
  by_contra h
  have h2 : ceilDiv S C < ceilDiv S C := (lt_ceilDiv_iff hC).mpr (by omega)
  omega

lemma chunkRangesAux_nil {C S u : Nat} (h : S ≤ u) : chunkRangesAux C S u = [] := by
  rw [chunkRangesAux, dif_neg]
  omega

lemma chunkRangesAux_closed {C : Nat} (hC : 0 < C) (S : Nat) :
    ∀ d k, ceilDiv S C - k ≤ d →
      chunkRangesAux C S (min (k * C) S) =
        (List.range' k (ceilDiv S C - k)).map (chunkRangeAt C S) := by
  intro d
  induction d with
  | zero =>
    intro k hk
    have hnk : ceilDiv S C ≤ k := by omega
    have hS : S ≤ k * C := le_trans (le_ceilDiv_mul hC S) (Nat.mul_le_mul_right C hnk)
    rw [min_eq_right hS, chunkRangesAux_nil (le_refl S)]
    have h0 : ceilDiv S C - k = 0 := by omega
    rw [h0]
    simp
  | succ d ih =>
    intro k hk
    by_cases hkn : k < ceilDiv S C
    · have hlt : k * C < S := (lt_ceilDiv_iff hC).mp hkn
      rw [min_eq_left (le_of_lt hlt), chunkRangesAux, dif_pos ⟨hlt, hC⟩]
      have hrec := ih (k + 1) (by omega)
      rw [show (k + 1) * C = k * C + C from Nat.succ_mul k C] at hrec
      rw [hrec]
      have hn : ceilDiv S C - k = (ceilDiv S C - (k + 1)) + 1 := by omega
      rw [hn, List.range'_succ, List.map_cons]
      simp [chunkRangeAt, Nat.succ_mul]
    · have hnk : ceilDiv S C ≤ k := by omega
      have hS : S ≤ k * C := le_trans (le_ceilDiv_mul hC S) (Nat.mul_le_mul_right C hnk)
      rw [min_eq_right hS, chunkRangesAux_nil (le_refl S)]
      have h0 : ceilDiv S C - k = 0 := by omega
      rw [h0]
      simp

/-- Closed form of the chunk-range sequence. -/
lemma chunkRanges_eq {C : Nat} (hC : 0 < C) (S : Nat) :
    chunkRanges C S = (List.range (ceilDiv S C)).map (chunkRangeAt C S) := by
  have h := chunkRangesAux_closed hC S (ceilDiv S C) 0 (by omega)
  simp only [Nat.zero_mul, Nat.min_eq_left (Nat.zero_le S), Nat.sub_zero] at h
  rw [chunkRanges, h, List.range_eq_range']

lemma chunkRanges_length {C : Nat} (hC : 0 < C) (S : Nat) :
    (chunkRanges C S).length = ceilDiv S C := by
  rw [chunkRanges_eq hC S]
  simp

lemma chunkRanges_get {C : Nat} (hC : 0 < C) (S i : Nat)
    (hi : i < (chunkRanges C S).length) :
    (chunkRanges C S).get ⟨i, hi⟩ = chunkRangeAt C S i := by
  have h := chunkRanges_eq hC S
  have hi2 : i < ((List.range (ceilDiv S C)).map (chunkRangeAt C S)).length := by
    rw [← h]
    exact hi
  rw [List.get_eq_getElem, List.getElem_of_eq h hi]
  simp

/-- Claim C1: for every file size S and chunk size C > 0, the chunk byte ranges
produced by the chunked upload loop cover `[0, S)` contiguously, without gaps or
overlaps, in ascending order; the number of chunks is `ceil(S/C)`; every chunk
but the last has length C and the last has length `S - (ceil(S/C) - 1) * C`;
each chunk's Content-Range header is `"bytes {start}-{end}/{S}"`; and for
S = 12000000, C = 5242880 there are exactly 3 chunks with inclusive ranges
0-5242879, 5242880-10485759, 10485760-11999999 and final length 1514240. -/
theorem C1_chunk_ranges (S C : Nat) (hC : 0 < C) :
    (chunkRanges C S).length = ceilDiv S C ∧
    (∀ i, (hi : i < (chunkRanges C S).length) →
      ((chunkRanges C S).get ⟨i, hi⟩).start = i * C ∧
      ((chunkRanges C S).get ⟨i, hi⟩).stop = min ((i + 1) * C) S ∧
      ((chunkRanges C S).get ⟨i, hi⟩).contentRange =
        contentRangeStr (i * C) (min ((i + 1) * C) S) S) ∧
    (∀ b, b < S → ∃ i, ∃ hi : i < (chunkRanges C S).length,
      ((chunkRanges C S).get ⟨i, hi⟩).start ≤ b ∧
      b < ((chunkRanges C S).get ⟨i, hi⟩).stop) ∧
    (∀ i j, (hi : i < (chunkRanges C S).length) → (hj : j < (chunkRanges C S).length) →
      i < j → ((chunkRanges C S).get ⟨i, hi⟩).stop ≤ ((chunkRanges C S).get ⟨j, hj⟩).start) ∧
    (∀ i, (hi : i + 1 < (chunkRanges C S).length) →
      ((chunkRanges C S).get ⟨i, by omega⟩).stop = ((chunkRanges C S).get ⟨i + 1, hi⟩).start) ∧
    (∀ i, (hi : i < (chunkRanges C S).length) → i + 1 < (chunkRanges C S).length →
      ((chunkRanges C S).get ⟨i, hi⟩).stop - ((chunkRanges C S).get ⟨i, hi⟩).start = C) ∧
    (∀ i, (hi : i < (chunkRanges C S).length) → i + 1 = (chunkRanges C S).length →
      ((chunkRanges C S).get ⟨i, hi⟩).stop - ((chunkRanges C S).get ⟨i, hi⟩).start =
        S - ((chunkRanges C S).length - 1) * C) ∧
    (chunkRanges 5242880 12000000).map (fun c => (c.start, c.stop - 1)) =
      [(0, 5242879), (5242880, 10485759), (10485760, 11999999)] ∧
    (chunkRanges 5242880 12000000).map (fun c => (c.contentRange, c.stop - c.start)) =
      [("bytes 0-5242879/12000000", 5242880),
       ("bytes 5242880-10485759/12000000", 5242880),
       ("bytes 10485760-11999999/12000000", 1514240)] := by
  have hlen := chunkRanges_length hC S
  refine ⟨hlen, ?_, ?_, ?_, ?_, ?_, ?_, ?_, ?_⟩
  · intro i hi
    rw [chunkRanges_get hC S i hi]
    exact ⟨rfl, rfl, rfl⟩
  · intro b hb
    have hq : b / C * C ≤ b := Nat.div_mul_le_self b C
    have hq2 : b < (b / C + 1) * C := by
      have h1 := Nat.div_add_mod b C
      have h2 := Nat.mod_lt b hC
      have h3 : (b / C + 1) * C = C * (b / C) + C := by ring
      rw [h3]
      linarith
    have hiC : b / C * C < S := lt_of_le_of_lt hq hb
    have hibound : b / C < (chunkRanges C S).length := by
      rw [hlen]
      exact (lt_ceilDiv_iff hC).mpr hiC
    refine ⟨b / C, hibound, ?_, ?_⟩
    · rw [chunkRanges_get hC S _ hibound]
      exact hq
    · rw [chunkRanges_get hC S _ hibound]
      exact lt_min hq2 hb
  · intro i j hi hj hij
    rw [chunkRanges_get hC S i hi, chunkRanges_get hC S j hj]
    calc min ((i + 1) * C) S ≤ (i + 1) * C := min_le_left _ _
      _ ≤ j * C := Nat.mul_le_mul_right C (by omega)
  · intro i hi
    rw [chunkRanges_get hC S i (by omega), chunkRanges_get hC S (i + 1) hi]
    have hi2 : i + 1 < ceilDiv S C := by
      rw [hlen] at hi
      exact hi
    exact min_eq_left (le_of_lt ((lt_ceilDiv_iff hC).mp hi2))
  · intro i hi hnext
    rw [chunkRanges_get hC S i hi]
    have hi2 : i + 1 < ceilDiv S C := by
      rw [hlen] at hnext
      exact hnext
    have hlt : (i + 1) * C < S := (lt_ceilDiv_iff hC).mp hi2
    rw [chunkRangeAt]
    simp only [min_eq_left (le_of_lt hlt)]
    rw [Nat.add_mul, Nat.one_mul]
    omega
  · intro i hi hlast
    rw [chunkRanges_get hC S i hi, hlen]
    have hi2 : i + 1 = ceilDiv S C := by
      rw [hlen] at hlast
      exact hlast
    have hS : S ≤ (i + 1) * C := by
      rw [hi2]
      exact le_ceilDiv_mul hC S
    rw [chunkRangeAt]
    simp only [min_eq_right hS, ← hi2]
    simp
  · simp +decide [chunkRanges, chunkRangesAux]
  · simp +decide [chunkRanges, chunkRangesAux]

/-- Witness for C1 at S = 10, C = 3. -/
theorem C1_chunk_ranges_witness :
    0 < 3 ∧ ((chunkRanges 3 10).length = ceilDiv 10 3 ∧
    (∀ i, (hi : i < (chunkRanges 3 10).length) →
      ((chunkRanges 3 10).get ⟨i, hi⟩).start = i * 3 ∧
      ((chunkRanges 3 10).get ⟨i, hi⟩).stop = min ((i + 1) * 3) 10 ∧
      ((chunkRanges 3 10).get ⟨i, hi⟩).contentRange =
        contentRangeStr (i * 3) (min ((i + 1) * 3) 10) 10) ∧
    (∀ b, b < 10 → ∃ i, ∃ hi : i < (chunkRanges 3 10).length,
      ((chunkRanges 3 10).get ⟨i, hi⟩).start ≤ b ∧
      b < ((chunkRanges 3 10).get ⟨i, hi⟩).stop) ∧
    (∀ i j, (hi : i < (chunkRanges 3 10).length) → (hj : j < (chunkRanges 3 10).length) →
      i < j → ((chunkRanges 3 10).get ⟨i, hi⟩).stop ≤ ((chunkRanges 3 10).get ⟨j, hj⟩).start) ∧
    (∀ i, (hi : i + 1 < (chunkRanges 3 10).length) →
      ((chunkRanges 3 10).get ⟨i, by omega⟩).stop = ((chunkRanges 3 10).get ⟨i + 1, hi⟩).start) ∧
    (∀ i, (hi : i < (chunkRanges 3 10).length) → i + 1 < (chunkRanges 3 10).length →
      ((chunkRanges 3 10).get ⟨i, hi⟩).stop - ((chunkRanges 3 10).get ⟨i, hi⟩).start = 3) ∧
    (∀ i, (hi : i < (chunkRanges 3 10).length) → i + 1 = (chunkRanges 3 10).length →
      ((chunkRanges 3 10).get ⟨i, hi⟩).stop - ((chunkRanges 3 10).get ⟨i, hi⟩).start =
        10 - ((chunkRanges 3 10).length - 1) * 3) ∧
    (chunkRanges 5242880 12000000).map (fun c => (c.start, c.stop - 1)) =
      [(0, 5242879), (5242880, 10485759), (10485760, 11999999)] ∧
    (chunkRanges 5242880 12000000).map (fun c => (c.contentRange, c.stop - c.start)) =
      [("bytes 0-5242879/12000000", 5242880),
       ("bytes 5242880-10485759/12000000", 5242880),
       ("bytes 10485760-11999999/12000000", 1514240)]) :=
  ⟨by decide, C1_chunk_ranges 10 3 (by decide)⟩

lemma take_append_drop_min (C u : Nat) (content : List Nat) (hC : 0 < C) :
    (content.drop u).take C ++ content.drop (min (u + C) content.length) =
      content.drop u := by
  rcases le_or_lt (u + C) content.length with hle | hlt
  · rw [min_eq_left hle, show u + C = u + C from rfl, ← List.drop_drop,
      List.take_append_drop]
  · rw [min_eq_right (le_of_lt hlt), List.drop_eq_nil_iff.mpr (le_refl _),
      List.append_nil, List.take_of_length_le]
    rw [List.length_drop]
    omega

lemma uploadLoop_nil {T : Nat → HttpResponse} {C : Nat} {content : List Nat} {u : Nat}
    (h : ¬(content.drop u).take C ≠ []) :
    uploadLoop T C content u =
      { sent := [], hashedBytes := [], progressCalls := [], result := Except.ok () } := by
  rw [uploadLoop, dif_neg h]

/-- When every chunk PUT succeeds, the loop from cursor `u` sends exactly the
byte ranges of the size-driven loop, feeds the hash accumulator exactly the
remaining file bytes in order, succeeds, and reports one progress value per
chunk, namely `round(chunk_end / file_size * 100)`. -/
lemma uploadLoop_ok (T : Nat → HttpResponse) (C : Nat) (content : List Nat)
    (hok : ∀ u, (T u).ok = true) (hC : 0 < C) :
    ∀ d u, content.length - u ≤ d →
      (uploadLoop T C content u).sent.map SentChunk.toRange =
        chunkRangesAux C content.length u ∧
      (uploadLoop T C content u).hashedBytes = content.drop u ∧
      (uploadLoop T C content u).result = Except.ok () ∧
      (uploadLoop T C content u).progressCalls =
        (chunkRangesAux C content.length u).map
          (fun c => pyRound (((c.stop : ℚ) / (content.length : ℚ)) * 100)) := by
  intro d
  induction d with
  | zero =>
    intro u hu
    have hge : content.length ≤ u := by omega
    have hnil : ¬(content.drop u).take C ≠ [] := by
      rw [List.drop_eq_nil_iff.mpr hge]
      simp
    rw [uploadLoop_nil hnil, chunkRangesAux_nil hge]
    exact ⟨rfl, (List.drop_eq_nil_iff.mpr hge).symm, rfl, rfl⟩
  | succ d ih =>
    intro u hu
    by_cases hg : (content.drop u).take C = []
    · have hge : content.length ≤ u := by
        rw [List.take_eq_nil_iff] at hg
        rcases hg with h0 | hdrop
        · omega
        · rw [List.drop_eq_nil_iff] at hdrop
          exact hdrop
      have hnil : ¬(content.drop u).take C ≠ [] := by
        simp [hg]
      rw [uploadLoop_nil hnil, chunkRangesAux_nil hge]
      exact ⟨rfl, (List.drop_eq_nil_iff.mpr hge).symm, rfl, rfl⟩
    · have hu2 : u < content.length := by
        by_contra hcon
        rw [List.drop_eq_nil_iff.mpr (by omega)] at hg
        simp at hg
      obtain ⟨ih1, ih2, ih3, ih4⟩ := ih (min (u + C) content.length) (by omega)
      rw [uploadLoop, dif_pos hg, if_pos (hok u)]
      rw [chunkRangesAux, dif_pos ⟨hu2, hC⟩]
      refine ⟨?_, ?_, ?_, ?_⟩
      · simp only [List.map_cons, ih1, SentChunk.toRange]
      · simp only [ih2]
        exact take_append_drop_min C u content hC
      · simp only [ih3]
      · simp [List.map_cons, ih4, Nat.cast_min]

/-- Every chunk sent by the loop from cursor `u` starts at or after `u`, and
the start offsets of the sent chunks are strictly increasing (each chunk is
sent at most once, in ascending offset order). -/
lemma uploadLoop_starts (T : Nat → HttpResponse) (C : Nat) (content : List Nat) :
    ∀ d u, content.length - u ≤ d →
      (∀ c ∈ (uploadLoop T C content u).sent, u ≤ c.start) ∧
      ((uploadLoop T C content u).sent.map SentChunk.start).Chain' (· < ·) := by
  intro d
  induction d with
  | zero =>
    intro u hu
    have hge : content.length ≤ u := by omega
    have hnil : ¬(content.drop u).take C ≠ [] := by
      rw [List.drop_eq_nil_iff.mpr hge]
      simp
    rw [uploadLoop_nil hnil]
    exact ⟨by intro c hc; simp at hc, by simp⟩
  | succ d ih =>
    intro u hu
    by_cases hg : (content.drop u).take C = []
    · rw [uploadLoop_nil (by simp [hg])]
      exact ⟨by intro c hc; simp at hc, by simp⟩
    · have hu2 : u < content.length := by
        by_contra hcon
        rw [List.drop_eq_nil_iff.mpr (by omega)] at hg
        simp at hg
      have hCpos : 0 < C := by
        rcases Nat.eq_zero_or_pos C with h0 | h0
        · rw [h0, List.take_zero] at hg
          exact absurd rfl hg
        · exact h0
      have hadv : u < min (u + C) content.length := by omega
      obtain ⟨ih1, ih2⟩ := ih (min (u + C) content.length) (by omega)
      rw [uploadLoop, dif_pos hg]
      by_cases hok : (T u).ok = true
      · rw [if_pos hok]
        constructor
        · intro c hc
          simp only [List.mem_cons] at hc
          rcases hc with rfl | hc
          · exact le_refl u
          · exact le_trans (le_of_lt hadv) (ih1 c hc)
        · simp only [List.map_cons]
          rw [List.chain'_cons']
          refine ⟨?_, ih2⟩
          intro y hy
          have hymem : y ∈ (uploadLoop T C content
              (min (u + C) content.length)).sent.map SentChunk.start :=
            List.mem_of_mem_head? hy
          obtain ⟨c, hc, rfl⟩ := List.mem_map.mp hymem
          exact lt_of_lt_of_le hadv (ih1 c hc)
      · rw [if_neg hok]
        constructor
        · intro c hc
          simp only [List.mem_cons, List.not_mem_nil, or_false] at hc
          rw [hc]
        · simp

lemma uploadLoop_step_ok {T : Nat → HttpResponse} {C : Nat} {content : List Nat} {u : Nat}
    (hg : ¬(content.drop u).take C = []) (hok : (T u).ok = true) :
    (uploadLoop T C content u).result =
      (uploadLoop T C content (min (u + C) content.length)).result ∧
    (uploadLoop T C content u).sent =
      ⟨u, min (u + C) content.length, (content.drop u).take C,
          contentRangeStr u (min (u + C) content.length) content.length⟩ ::
        (uploadLoop T C content (min (u + C) content.length)).sent := by
  rw [uploadLoop, dif_pos hg, if_pos hok]
  exact ⟨rfl, rfl⟩

lemma uploadLoop_step_fail {T : Nat → HttpResponse} {C : Nat} {content : List Nat} {u : Nat}
    (hg : ¬(content.drop u).take C = []) (hok : ¬(T u).ok = true) :
    uploadLoop T C content u =
      { sent := [⟨u, min (u + C) content.length, (content.drop u).take C,
            contentRangeStr u (min (u + C) content.length) content.length⟩]
        hashedBytes := []
        progressCalls := []
        result := Except.error (chunkErrorMsg
          (contentRangeStr u (min (u + C) content.length) content.length) (T u)) } := by
  rw [uploadLoop, dif_pos hg, if_neg hok]

/-- If the loop from cursor `u` ends in an error, the sent chunks decompose as
some successfully-acknowledged chunks followed by exactly one failing chunk;
the error message is that failing chunk's, carrying its Content-Range, the
HTTP status and the response body. -/
lemma uploadLoop_error (T : Nat → HttpResponse) (C : Nat) (content : List Nat) :
    ∀ d u, content.length - u ≤ d → ∀ e,
      (uploadLoop T C content u).result = Except.error e →
      ∃ pre c, (uploadLoop T C content u).sent = pre ++ [c] ∧
        (∀ c' ∈ pre, (T c'.start).ok = true) ∧
        (T c.start).ok = false ∧
        e = chunkErrorMsg c.contentRange (T c.start) := by
  intro d
  induction d with
  | zero =>
    intro u hu e he
    have hge : content.length ≤ u := by omega
    rw [uploadLoop_nil (by rw [List.drop_eq_nil_iff.mpr hge]; simp)] at he
    exact absurd he (by simp)
  | succ d ih =>
    intro u hu e he
    by_cases hg : (content.drop u).take C = []
    · rw [uploadLoop_nil (by simp [hg])] at he
      exact absurd he (by simp)
    · have hu2 : u < content.length := by
        by_contra hcon
        rw [List.drop_eq_nil_iff.mpr (by omega)] at hg
        simp at hg
      have hCpos : 0 < C := by
        rcases Nat.eq_zero_or_pos C with h0 | h0
        · rw [h0, List.take_zero] at hg
          exact absurd rfl hg
        · exact h0
      by_cases hok : (T u).ok = true
      · obtain ⟨hres, hsent⟩ := uploadLoop_step_ok hg hok
        rw [hres] at he
        obtain ⟨pre, c, h1, h2, h3, h4⟩ := ih (min (u + C) content.length) (by omega) e he
        refine ⟨⟨u, min (u + C) content.length, (content.drop u).take C,
            contentRangeStr u (min (u + C) content.length) content.length⟩ :: pre,
          c, ?_, ?_, h3, h4⟩
        · rw [hsent, h1]
          rfl
        · intro c' hc'
          rcases List.mem_cons.mp hc' with rfl | hx
          · exact hok
          · exact h2 c' hx
      · rw [uploadLoop_step_fail hg hok] at he ⊢
        refine ⟨[], ⟨u, min (u + C) content.length, (content.drop u).take C,
            contentRangeStr u (min (u + C) content.length) content.length⟩,
          rfl, ?_, ?_, ?_⟩
        · intro c' hc'
          simp at hc'
        · simpa using hok
        · simp only [Except.error.injEq] at he
          rw [← he]

/-- Claim C2: if some chunk PUT gets a non-success response, the upload raises
an error whose message carries the HTTP status and response body; the failing
chunk was sent exactly once (no retry); and no chunk with a higher byte offset
is ever sent afterwards (the failing chunk is the last one sent). -/
theorem C2_chunk_failure_aborts (T : Nat → HttpResponse) (C : Nat) (content : List Nat)
    (e : String) (herr : (uploadChunks T C content).result = Except.error e) :
    ∃ pre c, (uploadChunks T C content).sent = pre ++ [c] ∧
      (T c.start).ok = false ∧
      e = "Failed to upload chunk " ++ c.contentRange ++ ", status: " ++
        toString (T c.start).status ++ ", error: " ++ (T c.start).body ∧
      (∀ c' ∈ pre, (T c'.start).ok = true) ∧
      (uploadChunks T C content).sent.count c = 1 ∧
      (∀ c' ∈ (uploadChunks T C content).sent, c'.start ≤ c.start) := by
  simp only [uploadChunks] at herr ⊢
  obtain ⟨pre, c, h1, h2, h3, h4⟩ :=
    uploadLoop_error T C content content.length 0 (by omega) e herr
  have hchain := (uploadLoop_starts T C content content.length 0 (by omega)).2
  have hpair : ((uploadLoop T C content 0).sent.map SentChunk.start).Pairwise (· < ·) :=
    List.chain'_iff_pairwise.mp hchain
  have hnodup : (uploadLoop T C content 0).sent.Nodup :=
    List.Nodup.of_map SentChunk.start (hpair.imp (fun h => ne_of_lt h))
  have hcmem : c ∈ (uploadLoop T C content 0).sent := by
    rw [h1]
    exact List.mem_append_right pre (List.mem_singleton.mpr rfl)
  refine ⟨pre, c, h1, h3, ?_, h2, ?_, ?_⟩
  · rw [h4]
    rfl
  · exact List.count_eq_one_of_mem hnodup hcmem
  · intro c' hc'
    rw [h1] at hc'
    rcases List.mem_append.mp hc' with hx | hx
    · have hpair2 := hpair
      rw [show (uploadLoop T C content 0).sent = pre ++ [c] from h1,
        List.map_append, List.pairwise_append] at hpair2
      obtain ⟨-, -, hcross⟩ := hpair2
      exact le_of_lt (hcross c'.start (List.mem_map_of_mem SentChunk.start hx)
        c.start (by simp))
    · rw [List.mem_singleton.mp hx]

/-- Witness for C2: three bytes, chunk size 2; the PUT at offset 0 succeeds
and the PUT at offset 2 returns status 500 with body "boom". -/
theorem C2_chunk_failure_aborts_witness :
    (uploadChunks (fun u => if u = 0 then ({ ok := true, status := 201, body := "ok" } : HttpResponse)
        else { ok := false, status := 500, body := "boom" }) 2 [1, 2, 3]).result =
      Except.error "Failed to upload chunk bytes 2-2/3, status: 500, error: boom" ∧
    (∃ pre c, (uploadChunks (fun u => if u = 0 then ({ ok := true, status := 201, body := "ok" } : HttpResponse)
        else { ok := false, status := 500, body := "boom" }) 2 [1, 2, 3]).sent = pre ++ [c] ∧
      ((fun u => if u = 0 then ({ ok := true, status := 201, body := "ok" } : HttpResponse)
        else { ok := false, status := 500, body := "boom" }) c.start).ok = false ∧
      "Failed to upload chunk bytes 2-2/3, status: 500, error: boom" =
        "Failed to upload chunk " ++ c.contentRange ++ ", status: " ++
        toString (((fun u => if u = 0 then ({ ok := true, status := 201, body := "ok" } : HttpResponse)
          else { ok := false, status := 500, body := "boom" }) c.start)).status ++ ", error: " ++
        ((fun u => if u = 0 then ({ ok := true, status := 201, body := "ok" } : HttpResponse)
          else { ok := false, status := 500, body := "boom" }) c.start).body ∧
      (∀ c' ∈ pre, ((fun u => if u = 0 then ({ ok := true, status := 201, body := "ok" } : HttpResponse)
        else { ok := false, status := 500, body := "boom" }) c'.start).ok = true) ∧
      (uploadChunks (fun u => if u = 0 then ({ ok := true, status := 201, body := "ok" } : HttpResponse)
        else { ok := false, status := 500, body := "boom" }) 2 [1, 2, 3]).sent.count c = 1 ∧
      (∀ c' ∈ (uploadChunks (fun u => if u = 0 then ({ ok := true, status := 201, body := "ok" } : HttpResponse)
        else { ok := false, status := 500, body := "boom" }) 2 [1, 2, 3]).sent, c'.start ≤ c.start)) := by
  have herr : (uploadChunks (fun u => if u = 0 then ({ ok := true, status := 201, body := "ok" } : HttpResponse)
      else { ok := false, status := 500, body := "boom" }) 2 [1, 2, 3]).result =
      Except.error "Failed to upload chunk bytes 2-2/3, status: 500, error: boom" := by
    simp +decide [uploadChunks, uploadLoop, chunkErrorMsg, contentRangeStr]
  exact ⟨herr, C2_chunk_failure_aborts _ 2 [1, 2, 3] _ herr⟩

/-- The sequential read loop reads back exactly the remaining file bytes. -/
lemma readChunksAux_flatten (bs : Nat) (content : List Nat) (hbs : 0 < bs) :
    ∀ d pos, content.length - pos ≤ d →
      (readChunksAux bs content pos).flatten = content.drop pos := by
  intro d
  induction d with
  | zero =>
    intro pos hpos
    have hge : content.length ≤ pos := by omega
    rw [readChunksAux, dif_neg (by rw [List.drop_eq_nil_iff.mpr hge]; simp)]
    rw [List.drop_eq_nil_iff.mpr hge]
    rfl
  | succ d ih =>
    intro pos hpos
    by_cases hg : (content.drop pos).take bs = []
    · rw [readChunksAux, dif_neg (by simp [hg])]
      rw [List.take_eq_nil_iff] at hg
      rcases hg with h0 | hdrop
      · omega
      · rw [hdrop]
        rfl
    · have hpos2 : pos < content.length := by
        by_contra hcon
        rw [List.drop_eq_nil_iff.mpr (by omega)] at hg
        simp at hg
      have hlen : ((content.drop pos).take bs).length =
          min bs (content.length - pos) := by
        rw [List.length_take, List.length_drop]
      have hlpos : 0 < ((content.drop pos).take bs).length :=
        List.length_pos.mpr hg
      rw [readChunksAux, dif_pos hg, List.flatten_cons]
      rw [ih (pos + ((content.drop pos).take bs).length) (by omega)]
      have heq : pos + ((content.drop pos).take bs).length =
          min (pos + bs) content.length := by
        rw [hlen]
        omega
      rw [heq]
      exact take_append_drop_min bs pos content hbs

/-- Claim C3: hashing is a pure function of the byte sequence fed to it, the
320 KiB hash pass and the chunk-size upload pass feed the accumulator the same
byte sequence (the whole file, in order, exactly once) whenever every chunk PUT
succeeds, so any digest and base64 encoding of the two passes agree; and
re-running the coordinator over unchanged content reproduces the digest and the
exact Content-Range sequence. -/
theorem C3_hash_two_pass (T : Nat → HttpResponse) (C : Nat) (content : List Nat)
    (hC : 0 < C) (hok : ∀ u, (T u).ok = true) :
    compute_local_quickxorhash content = content ∧
    (uploadChunks T C content).hashedBytes = content ∧
    (∀ digest : List Nat → List Nat, ∀ b64 : List Nat → String,
      b64 (digest (compute_local_quickxorhash content)) =
        b64 (digest ((uploadChunks T C content).hashedBytes))) ∧
    (∀ run1 run2 : UploadOutcome,
      run1 = uploadChunks T C content → run2 = uploadChunks T C content →
      run1.sent.map SentChunk.contentRange = run2.sent.map SentChunk.contentRange ∧
      run1.hashedBytes = run2.hashedBytes) := by
  have hlocal : compute_local_quickxorhash content = content := by
    rw [compute_local_quickxorhash]
    have h := readChunksAux_flatten (320 * 1024) content (by omega)
      content.length 0 (by omega)
    rw [h]
    rfl
  have hupload : (uploadChunks T C content).hashedBytes = content := by
    rw [uploadChunks]
    have h := (uploadLoop_ok T C content hok hC content.length 0 (by omega)).2.1
    rw [h]
    rfl
  refine ⟨hlocal, hupload, ?_, ?_⟩
  · intro digest b64
    rw [hlocal, hupload]
  · intro run1 run2 h1 h2
    rw [h1, h2]
    exact ⟨rfl, rfl⟩

/-- Witness for C3 at content [7, 8, 9], chunk size 2, all PUTs succeeding. -/
theorem C3_hash_two_pass_witness :
    0 < 2 ∧
    (compute_local_quickxorhash [7, 8, 9] = [7, 8, 9] ∧
    (uploadChunks (fun _ => { ok := true, status := 200, body := "" }) 2 [7, 8, 9]).hashedBytes =
      [7, 8, 9] ∧
    (∀ digest : List Nat → List Nat, ∀ b64 : List Nat → String,
      b64 (digest (compute_local_quickxorhash [7, 8, 9])) =
        b64 (digest ((uploadChunks (fun _ => { ok := true, status := 200, body := "" })
          2 [7, 8, 9]).hashedBytes))) ∧
    (∀ run1 run2 : UploadOutcome,
      run1 = uploadChunks (fun _ => { ok := true, status := 200, body := "" }) 2 [7, 8, 9] →
      run2 = uploadChunks (fun _ => { ok := true, status := 200, body := "" }) 2 [7, 8, 9] →
      run1.sent.map SentChunk.contentRange = run2.sent.map SentChunk.contentRange ∧
      run1.hashedBytes = run2.hashedBytes)) :=
  ⟨by decide, C3_hash_two_pass (fun _ => { ok := true, status := 200, body := "" }) 2 [7, 8, 9]
    (by decide) (fun _ => rfl)⟩

lemma pyRound_intCast (n : ℤ) : pyRound (n : ℚ) = n := by
  rw [pyRound, Int.floor_intCast, if_pos (by norm_num)]

lemma pyRound_mono {a b : ℚ} (hab : a ≤ b) : pyRound a ≤ pyRound b := by
  have hf : ⌊a⌋ ≤ ⌊b⌋ := Int.floor_le_floor hab
  rcases lt_or_eq_of_le hf with hlt | heq
  · have h1 : pyRound a ≤ ⌊a⌋ + 1 := by
      rw [pyRound]
      split_ifs <;> omega
    have h2 : ⌊b⌋ ≤ pyRound b := by
      rw [pyRound]
      split_ifs <;> omega
    omega
  · rw [pyRound, pyRound, ← heq]
    split_ifs <;> first | omega | linarith

lemma pyRound_nonneg {q : ℚ} (h : 0 ≤ q) : 0 ≤ pyRound q := by
  have := pyRound_mono (show ((0 : ℤ) : ℚ) ≤ q by exact_mod_cast h)
  rwa [pyRound_intCast] at this

lemma pyRound_le_100 {q : ℚ} (h : q ≤ 100) : pyRound q ≤ 100 := by
  have := pyRound_mono (show q ≤ ((100 : ℤ) : ℚ) by exact_mod_cast h)
  rwa [pyRound_intCast] at this

/-- Claim C4: with a positive file size and chunk size and every PUT
acknowledged as successful, the progress callback fires exactly once per sent
chunk, with value `round(bytes_uploaded / S * 100)`; every reported value lies
in [0, 100]; the sequence is non-decreasing; and the final value is 100. -/
theorem C4_progress_monotone (T : Nat → HttpResponse) (C : Nat) (content : List Nat)
    (hC : 0 < C) (hne : content ≠ []) (hok : ∀ u, (T u).ok = true) :
    (uploadChunks T C content).progressCalls.length =
      (uploadChunks T C content).sent.length ∧
    (uploadChunks T C content).progressCalls =
      (uploadChunks T C content).sent.map (fun c => progressValue content.length c.stop) ∧
    (∀ v ∈ (uploadChunks T C content).progressCalls, 0 ≤ v ∧ v ≤ 100) ∧
    (uploadChunks T C content).progressCalls.Chain' (· ≤ ·) ∧
    (uploadChunks T C content).progressCalls.getLast? = some 100 := by
  obtain ⟨h1, h2, h3, h4⟩ :=
    uploadLoop_ok T C content hok hC content.length 0 (by omega)
  have hS : 0 < content.length := List.length_pos.mpr hne
  have hn : 0 < ceilDiv content.length C := by
    rw [lt_ceilDiv_iff hC, Nat.zero_mul]
    exact hS
  have hcr : chunkRangesAux C content.length 0 = chunkRanges C content.length := rfl
  have hclosed := chunkRanges_eq hC content.length
  have hprog : (uploadChunks T C content).progressCalls =
      (List.range (ceilDiv content.length C)).map
        (fun i => progressValue content.length (min ((i + 1) * C) content.length)) := by
    rw [uploadChunks, h4, hcr, hclosed, List.map_map]
    rfl
  have hstop_le : ∀ i, min ((i + 1) * C) content.length ≤ content.length :=
    fun i => min_le_right _ _
  have hq_nonneg : ∀ stop : Nat, (0 : ℚ) ≤ ((stop : ℚ) / (content.length : ℚ)) * 100 := by
    intro stop
    positivity
  have hq_le : ∀ stop : Nat, stop ≤ content.length →
      ((stop : ℚ) / (content.length : ℚ)) * 100 ≤ 100 := by
    intro stop hstop
    have hdiv : (stop : ℚ) / (content.length : ℚ) ≤ 1 :=
      div_le_one_of_le₀ (by exact_mod_cast hstop) (by positivity)
    linarith
  refine ⟨?_, ?_, ?_, ?_, ?_⟩
  · have hlen1 : (uploadChunks T C content).sent.length =
        (chunkRanges C content.length).length := by
      rw [uploadChunks, ← hcr, ← h1, List.length_map]
    rw [hprog, hlen1, hclosed, List.length_map, List.length_map, List.length_range]
  · rw [uploadChunks, h4, ← h1, List.map_map]
    rfl
  · intro v hv
    rw [hprog] at hv
    obtain ⟨i, hi, rfl⟩ := List.mem_map.mp hv
    constructor
    · exact pyRound_nonneg (hq_nonneg _)
    · exact pyRound_le_100 (hq_le _ (hstop_le i))
  · rw [hprog]
    apply List.Pairwise.chain'
    rw [List.pairwise_map]
    apply (List.pairwise_lt_range _).imp
    intro i j hij
    apply pyRound_mono
    have hmin : min ((i + 1) * C) content.length ≤ min ((j + 1) * C) content.length :=
      min_le_min (Nat.mul_le_mul_right C (by omega)) (le_refl _)
    have hlenpos : (0 : ℚ) < content.length := by exact_mod_cast hS
    gcongr
  · rw [hprog, List.getLast?_eq_getElem?]
    rw [List.length_map, List.length_range]
    rw [List.getElem?_map, List.getElem?_range (by omega :
      ceilDiv content.length C - 1 < ceilDiv content.length C)]
    have hminS : min ((ceilDiv content.length C - 1 + 1) * C) content.length =
        content.length := by
      have hle := le_ceilDiv_mul hC content.length
      have : ceilDiv content.length C - 1 + 1 = ceilDiv content.length C := by omega
      rw [this]
      exact min_eq_right hle
    rw [Option.map_some']
    have : progressValue content.length
        (min ((ceilDiv content.length C - 1 + 1) * C) content.length) = 100 := by
      rw [hminS, progressValue, div_self (show (content.length : ℚ) ≠ 0 from
        ne_of_gt (by exact_mod_cast hS)), one_mul]
      exact_mod_cast pyRound_intCast 100
    rw [this]

/-- Witness for C4 at content [7, 8, 9], chunk size 2, all PUTs succeeding. -/
theorem C4_progress_monotone_witness :
    0 < 2 ∧ ([7, 8, 9] : List Nat) ≠ [] ∧
    ((uploadChunks (fun _ => { ok := true, status := 200, body := "" }) 2 [7, 8, 9]).progressCalls.length =
      (uploadChunks (fun _ => { ok := true, status := 200, body := "" }) 2 [7, 8, 9]).sent.length ∧
    (uploadChunks (fun _ => { ok := true, status := 200, body := "" }) 2 [7, 8, 9]).progressCalls =
      (uploadChunks (fun _ => { ok := true, status := 200, body := "" }) 2 [7, 8, 9]).sent.map
        (fun c => progressValue (List.length [7, 8, 9]) c.stop) ∧
    (∀ v ∈ (uploadChunks (fun _ => { ok := true, status := 200, body := "" }) 2 [7, 8, 9]).progressCalls,
      0 ≤ v ∧ v ≤ 100) ∧
    (uploadChunks (fun _ => { ok := true, status := 200, body := "" }) 2 [7, 8, 9]).progressCalls.Chain' (· ≤ ·) ∧
    (uploadChunks (fun _ => { ok := true, status := 200, body := "" }) 2 [7, 8, 9]).progressCalls.getLast? =
      some 100) :=
  ⟨by decide, by decide,
    C4_progress_monotone (fun _ => { ok := true, status := 200, body := "" }) 2 [7, 8, 9]
      (by decide) (by decide) (fun _ => rfl)⟩

/-- Claim C5, counterexample: for a zero-byte file the loop body never runs, so
the progress callback is invoked zero times — not "exactly once with the value
100" as claimed. (The transport is irrelevant; no PUT is issued.) -/
theorem C5_zero_byte_counterexample :
    ¬ ((upload_file_in_chunks (fun _ => { ok := true, status := 200, body := "" })
        5 []).progressCalls.length = 1) := by
  rw [upload_file_in_chunks, uploadChunks, uploadLoop_nil (by simp)]
  simp

/-- Claim C5 (amended): a zero-byte file completes successfully with zero
chunks sent (no PUT issued), the hash accumulator is fed no bytes (so the
returned digest is the accumulator's empty-input digest), and the progress
callback is invoked zero times (the source never fires it for an empty file). -/
theorem C5_zero_byte_amended (T : Nat → HttpResponse) (chunkSizeMB : Nat) :
    upload_file_in_chunks T chunkSizeMB [] =
      { sent := [], hashedBytes := [], progressCalls := [], result := Except.ok () } := by
  rw [upload_file_in_chunks, uploadChunks, uploadLoop_nil (by simp)]

/-- Claim C6 (exposing the retarded_graph.py bug): the spec mandates that every
chunk PUT's response is awaited and checked before the cursor advances, and
upload.py's loop does so (`async with session.put(...) as response` followed by
the `response.ok` check), but `retarded_graph.upload_chunk` issues
`session.put(upload_url, data=chunk)` without awaiting it. For the one-byte
file [7] the retarded variant issues its single chunk PUT fire-and-forget
(awaited = false), while upload.py's loop awaits and checks the same chunk. -/
theorem C6_fire_and_forget :
    (retarded_upload_async_puts [7]).map PutRequest.awaited = [false] ∧
    ((uploadChunks (fun _ => { ok := true, status := 200, body := "" }) 2 [7]).sent.map
      (fun c => (upload_py_put c).awaited)) = [true] := by
  constructor
  · simp +decide [retarded_upload_async_puts, readChunksAux, retarded_upload_chunk]
  · simp +decide [uploadChunks, uploadLoop, upload_py_put]

/-- Claim C7: when the token fetch returns a non-success status, the handler
reports the authentication failure (the token error message) and issues no
further request: no createUploadSession request and no chunk PUT. -/
theorem C7_auth_failure (o : HandlerOracle) (remote : String)
    (remotePath fileName : List Char) (content : List Nat) (chunkSizeMB : Nat)
    (h : o.tokenResp.ok = false) :
    (upload_handler o remote remotePath fileName content chunkSizeMB).requests =
      [ApiRequest.tokenFetch remote] ∧
    (upload_handler o remote remotePath fileName content chunkSizeMB).result =
      Except.error ("Failed to get upload token: " ++ o.tokenResp.body) ∧
    (∀ r ∈ (upload_handler o remote remotePath fileName content chunkSizeMB).requests,
      (∀ p, r ≠ ApiRequest.createSession p) ∧ (∀ a b, r ≠ ApiRequest.putChunk a b)) := by
  have htok : get_upload_token o =
      Except.error ("Failed to get upload token: " ++ o.tokenResp.body) := by
    rw [get_upload_token, if_neg]
    rw [h]
    simp
  refine ⟨?_, ?_, ?_⟩
  · rw [upload_handler, htok]
  · rw [upload_handler, htok]
  · rw [upload_handler, htok]
    intro r hr
    rcases List.mem_singleton.mp hr with rfl
    exact ⟨fun p => by simp, fun a b => by simp⟩

/-- Witness for C7: a token endpoint answering 403 "forbidden". -/
theorem C7_auth_failure_witness :
    oracle403.tokenResp.ok = false ∧
    ((upload_handler oracle403 "oned" ['d'] ['f'] [1] 5).requests =
      [ApiRequest.tokenFetch "oned"] ∧
    (upload_handler oracle403 "oned" ['d'] ['f'] [1] 5).result =
      Except.error ("Failed to get upload token: " ++ oracle403.tokenResp.body) ∧
    (∀ r ∈ (upload_handler oracle403 "oned" ['d'] ['f'] [1] 5).requests,
      (∀ p, r ≠ ApiRequest.createSession p) ∧ (∀ a b, r ≠ ApiRequest.putChunk a b))) :=
  ⟨rfl, C7_auth_failure oracle403 "oned" ['d'] ['f'] [1] 5 rfl⟩

lemma head?_dropWhile_ne (p : Char → Bool) (l : List Char) (x : Char)
    (h : (l.dropWhile p).head? = some x) : p x = false := by
  have h2 := List.head?_dropWhile_not p l
  rw [h] at h2
  exact h2

lemma getLast?_dropWhile (p : Char → Bool) :
    ∀ l : List Char, l.dropWhile p ≠ [] → (l.dropWhile p).getLast? = l.getLast? := by
  intro l
  induction l with
  | nil =>
    intro h
    simp at h
  | cons a t ih =>
    intro h
    by_cases hp : p a
    · rw [List.dropWhile_cons_of_pos hp] at h ⊢
      rw [ih h]
      cases t with
      | nil => simp at h
      | cons b t2 => rw [List.getLast?_cons_cons]
    · rw [List.dropWhile_cons_of_neg hp]

/-- `str.strip(c)` output never ends with `c`. -/
lemma pyStrip_getLast (c : Char) (s : List Char) (x : Char)
    (h : (pyStrip c s).getLast? = some x) : x ≠ c := by
  rw [pyStrip, List.getLast?_reverse] at h
  have h2 := head?_dropWhile_ne _ _ _ h
  simpa using h2

/-- `str.strip(c)` output never starts with `c`. -/
lemma pyStrip_head (c : Char) (s : List Char) (x : Char)
    (h : (pyStrip c s).head? = some x) : x ≠ c := by
  rw [pyStrip, List.head?_reverse] at h
  have hne : (s.dropWhile (fun a => a = c)).reverse.dropWhile (fun a => a = c) ≠ [] := by
    intro h0
    rw [h0] at h
    simp at h
  rw [getLast?_dropWhile _ _ hne, List.getLast?_reverse] at h
  have h2 := head?_dropWhile_ne _ _ _ h
  simpa using h2

lemma hasDoubleSep_of_all_ne (l : List Char) (h : ∀ x ∈ l, x ≠ '/') :
    hasDoubleSep l = false := by
  induction l with
  | nil => rfl
  | cons a t ih =>
    cases t with
    | nil => rfl
    | cons b t2 =>
      have ha : a ≠ '/' := h a (by simp)
      have hrest : hasDoubleSep (b :: t2) = false := ih (fun x hx => h x (by simp [hx]))
      rw [hasDoubleSep, hrest]
      simp [ha]

lemma hasDoubleSep_append (Y : List Char) (hY : hasDoubleSep Y = false)
    (hYh : ∀ y, Y.head? = some y → y ≠ '/') :
    ∀ X : List Char, hasDoubleSep X = false →
      (∀ x, X.getLast? = some x → x ≠ '/') →
      hasDoubleSep (X ++ '/' :: Y) = false := by
  intro X
  induction X with
  | nil =>
    intro hX hXl
    cases Y with
    | nil => rfl
    | cons y t =>
      have hy : y ≠ '/' := hYh y rfl
      rw [List.nil_append, hasDoubleSep, hY]
      simp [hy]
  | cons a X2 ih =>
    intro hX hXl
    cases X2 with
    | nil =>
      have ha : a ≠ '/' := hXl a rfl
      have hrest : hasDoubleSep ([] ++ '/' :: Y) = false :=
        ih rfl (fun x hx => by simp at hx)
      rw [List.nil_append] at hrest
      rw [List.cons_append, List.nil_append, hasDoubleSep, hrest]
      simp [ha]
    | cons b X3 =>
      rw [hasDoubleSep, Bool.or_eq_false_iff] at hX
      obtain ⟨hab, hX2⟩ := hX
      have hXl2 : ∀ x, (b :: X3).getLast? = some x → x ≠ '/' := by
        intro x hx
        apply hXl
        rw [List.getLast?_cons_cons]
        exact hx
      have hrest := ih hX2 hXl2
      rw [List.cons_append] at hrest
      rw [List.cons_append, List.cons_append, hasDoubleSep, hrest, Bool.or_false]
      exact hab

lemma hasEmptySegment_eq_false {p : List Char} (hne : p ≠ [])
    (hh : ∀ x, p.head? = some x → x ≠ '/')
    (hl : ∀ x, p.getLast? = some x → x ≠ '/')
    (hd : hasDoubleSep p = false) : hasEmptySegment p = false := by
  rw [hasEmptySegment, hd]
  simp only [Bool.or_false, Bool.or_eq_false_iff]
  refine ⟨⟨?_, ?_⟩, ?_⟩
  · cases p with
    | nil => exact absurd rfl hne
    | cons a t => rfl
  · rw [decide_eq_false_iff_not]
    intro h
    exact hh '/' h rfl
  · rw [decide_eq_false_iff_not]
    intro h
    exact hl '/' h rfl

/-- Claim C8, counterexample: the source only strips leading and trailing
slashes and never collapses interior ones, so the claimed normalization fails.
With upload root "//" (slashes only) and an empty remote directory the path
handed to session creation is "/f" — it has an empty leading segment; with
upload root "r" and remote directory "a//b" the path is "r/a//b/f", which
contains a literal double separator. -/
theorem C8_normalization_counterexample :
    hasEmptySegment (cleanPath ['/', '/'] (finalRemotePath [] ['f'])) = true ∧
    hasDoubleSep (cleanPath ['r'] (finalRemotePath ['a', '/', '/', 'b'] ['f'])) = true := by
  constructor
  · decide
  · decide

/-- Claim C8 (amended): the fully-qualified path handed to session creation is
exactly `strip(upload_root) + "/" + (strip(remote_dir) + "/")? + file_name`,
and it contains no empty path segment provided the upload root contains a
non-slash character, the stripped upload root and stripped remote directory
contain no interior double slash, and the file name is nonempty and free of
slashes. (For an upload root that is empty or all slashes, or a directory with
interior double slashes, the claim fails — see the counterexample.) -/
theorem C8_normalized_path (uploadRoot remotePath fileName : List Char)
    (hroot : pyStrip '/' uploadRoot ≠ [])
    (hrootd : hasDoubleSep (pyStrip '/' uploadRoot) = false)
    (hdir : hasDoubleSep (pyStrip '/' remotePath) = false)
    (hname : fileName ≠ []) (hslash : ∀ ch ∈ fileName, ch ≠ '/') :
    cleanPath uploadRoot (finalRemotePath remotePath fileName) =
      pyStrip '/' uploadRoot ++ '/' :: finalRemotePath remotePath fileName ∧
    hasEmptySegment (cleanPath uploadRoot (finalRemotePath remotePath fileName)) = false := by
  refine ⟨rfl, ?_⟩
  have hFne : finalRemotePath remotePath fileName ≠ [] := by
    rw [finalRemotePath]
    by_cases hD : pyStrip '/' remotePath = []
    · rw [if_pos hD]
      exact hname
    · rw [if_neg hD]
      simp [hD]
  have hFh : ∀ y, (finalRemotePath remotePath fileName).head? = some y → y ≠ '/' := by
    intro y hy
    rw [finalRemotePath] at hy
    by_cases hD : pyStrip '/' remotePath = []
    · rw [if_pos hD] at hy
      exact hslash y (List.mem_of_mem_head? hy)
    · rw [if_neg hD, List.head?_append] at hy
      cases hDh : (pyStrip '/' remotePath).head? with
      | none =>
        rw [List.head?_eq_none_iff] at hDh
        exact absurd hDh hD
      | some d =>
        rw [hDh, Option.or_some] at hy
        rw [show y = d from (Option.some.injEq _ _).mp hy.symm]
        exact pyStrip_head '/' remotePath d hDh
  have hFl : ∀ x, (finalRemotePath remotePath fileName).getLast? = some x → x ≠ '/' := by
    intro x hx
    rw [finalRemotePath] at hx
    by_cases hD : pyStrip '/' remotePath = []
    · rw [if_pos hD] at hx
      exact hslash x (List.mem_of_getLast?_eq_some hx)
    · rw [if_neg hD, List.getLast?_append] at hx
      cases fileName with
      | nil => exact absurd rfl hname
      | cons f t =>
        rw [List.getLast?_cons_cons] at hx
        cases hft : (f :: t).getLast? with
        | none =>
          rw [List.getLast?_eq_none_iff] at hft
          exact absurd hft (by simp)
        | some z =>
          rw [hft, Option.or_some] at hx
          rw [show x = z from (Option.some.injEq _ _).mp hx.symm]
          exact hslash z (List.mem_of_getLast?_eq_some hft)
  have hFd : hasDoubleSep (finalRemotePath remotePath fileName) = false := by
    rw [finalRemotePath]
    by_cases hD : pyStrip '/' remotePath = []
    · rw [if_pos hD]
      exact hasDoubleSep_of_all_ne fileName hslash
    · rw [if_neg hD]
      exact hasDoubleSep_append fileName (hasDoubleSep_of_all_ne fileName hslash)
        (fun y hy => hslash y (List.mem_of_mem_head? hy))
        (pyStrip '/' remotePath) hdir
        (fun z hz => pyStrip_getLast '/' remotePath z hz)
  apply hasEmptySegment_eq_false
  · rw [cleanPath]
    simp
  · intro x hx
    rw [cleanPath, List.head?_append] at hx
    cases hRh : (pyStrip '/' uploadRoot).head? with
    | none =>
      rw [List.head?_eq_none_iff] at hRh
      exact absurd hRh hroot
    | some r =>
      rw [hRh, Option.or_some] at hx
      rw [show x = r from (Option.some.injEq _ _).mp hx.symm]
      exact pyStrip_head '/' uploadRoot r hRh
  · intro x hx
    rw [cleanPath, List.getLast?_append] at hx
    cases hF : finalRemotePath remotePath fileName with
    | nil => exact absurd hF hFne
    | cons f t =>
      rw [hF, List.getLast?_cons_cons] at hx
      cases hft : (f :: t).getLast? with
      | none =>
        rw [List.getLast?_eq_none_iff] at hft
        exact absurd hft (by simp)
      | some z =>
        rw [hft, Option.or_some] at hx
        rw [show x = z from (Option.some.injEq _ _).mp hx.symm]
        apply hFl
        rw [hF]
        exact hft
  · rw [cleanPath]
    exact hasDoubleSep_append (finalRemotePath remotePath fileName) hFd hFh
      (pyStrip '/' uploadRoot) hrootd
      (fun z hz => pyStrip_getLast '/' uploadRoot z hz)

/-- Witness for C8 at root "r", remote directory "a/b", file name "f". -/
theorem C8_normalized_path_witness :
    pyStrip '/' ['r'] ≠ [] ∧
    hasDoubleSep (pyStrip '/' ['r']) = false ∧
    hasDoubleSep (pyStrip '/' ['a', '/', 'b']) = false ∧
    (['f'] : List Char) ≠ [] ∧ (∀ ch ∈ (['f'] : List Char), ch ≠ '/') ∧
    (cleanPath ['r'] (finalRemotePath ['a', '/', 'b'] ['f']) =
      pyStrip '/' ['r'] ++ '/' :: finalRemotePath ['a', '/', 'b'] ['f'] ∧
    hasEmptySegment (cleanPath ['r'] (finalRemotePath ['a', '/', 'b'] ['f'])) = false) :=
  ⟨by decide, by decide, by decide, by decide, by decide,
    C8_normalized_path ['r'] ['a', '/', 'b'] ['f'] (by decide) (by decide) (by decide)
      (by decide) (by decide)⟩

lemma uploadChunks_result_ok (T : Nat → HttpResponse) (content : List Nat)
    (hok : ∀ u, (T u).ok = true) (C : Nat) :
    (uploadChunks T C content).result = Except.ok () := by
  rcases Nat.eq_zero_or_pos C with h0 | h0
  · rw [uploadChunks, h0, uploadLoop_nil (by simp)]
  · exact (uploadLoop_ok T C content hok h0 content.length 0 (by omega)).2.2.1

/-- A file whose oracle succeeds end to end completes (its handler run is not
failed). -/
lemma upload_handler_ok (o : HandlerOracle) (remote : String) (rp fn : List Char)
    (content : List Nat) (mb : Nat) (hAll : oracleAllOk o) :
    (upload_handler o remote rp fn content mb).failed = false := by
  obtain ⟨h1, h2, h3⟩ := hAll
  have hres : (upload_file_in_chunks o.putResp mb content).result = Except.ok () := by
    rw [upload_file_in_chunks]
    exact uploadChunks_result_ok o.putResp content h3 (mb * 1024 * 1024)
  simp only [upload_handler, get_upload_token, if_pos h1, create_upload_session,
    if_pos h2, hres, HandlerOutcome.failed]

/-- A file with token and session granted but every chunk PUT refused fails
(for a nonempty file and positive chunk size, its first chunk PUT is refused). -/
lemma upload_handler_fail (o : HandlerOracle) (remote : String) (rp fn : List Char)
    (content : List Nat) (mb : Nat)
    (h1 : o.tokenResp.ok = true) (h2 : o.sessionResp.ok = true)
    (h3 : ∀ u, (o.putResp u).ok = false) (hc : content ≠ []) (hmb : 0 < mb) :
    (upload_handler o remote rp fn content mb).failed = true := by
  have hg : ¬(content.drop 0).take (mb * 1024 * 1024) = [] := by
    rw [List.drop_zero, List.take_eq_nil_iff]
    push_neg
    constructor
    · positivity
    · exact hc
  have hfail : (upload_file_in_chunks o.putResp mb content).result =
      Except.error (chunkErrorMsg
        (contentRangeStr 0 (min (0 + mb * 1024 * 1024) content.length) content.length)
        (o.putResp 0)) := by
    rw [upload_file_in_chunks, uploadChunks,
      uploadLoop_step_fail hg (by rw [h3 0]; simp)]
  simp only [upload_handler, get_upload_token, if_pos h1, create_upload_session,
    if_pos h2, hfail, HandlerOutcome.failed]

/-- Claim C9: in a batch where exactly one file's chunk PUTs always fail and
every other file's collaborators succeed, each file's outcome is exactly its
own handler's outcome (one file's failure does not cancel its siblings), the
other files all complete, the failing file fails, and the dispatcher observes
exactly one failed outcome. -/
theorem C9_failure_isolation (remotePath : List Char) (chunkSizeMB : Nat)
    (A B : List FileJob) (bad : FileJob) (hmb : 0 < chunkSizeMB)
    (hA : ∀ j ∈ A, oracleAllOk j.oracle) (hB : ∀ j ∈ B, oracleAllOk j.oracle)
    (hbadTok : bad.oracle.tokenResp.ok = true)
    (hbadSes : bad.oracle.sessionResp.ok = true)
    (hbadPut : ∀ u, (bad.oracle.putResp u).ok = false)
    (hbadContent : bad.content ≠ []) :
    uploadBatch remotePath chunkSizeMB (A ++ bad :: B) =
      A.map (fun j => upload_handler j.oracle j.remote remotePath j.fileName
          j.content chunkSizeMB) ++
        upload_handler bad.oracle bad.remote remotePath bad.fileName
          bad.content chunkSizeMB ::
        B.map (fun j => upload_handler j.oracle j.remote remotePath j.fileName
          j.content chunkSizeMB) ∧
    (∀ j ∈ A, (upload_handler j.oracle j.remote remotePath j.fileName
      j.content chunkSizeMB).failed = false) ∧
    (∀ j ∈ B, (upload_handler j.oracle j.remote remotePath j.fileName
      j.content chunkSizeMB).failed = false) ∧
    (upload_handler bad.oracle bad.remote remotePath bad.fileName
      bad.content chunkSizeMB).failed = true ∧
    ((uploadBatch remotePath chunkSizeMB (A ++ bad :: B)).filter
      HandlerOutcome.failed).length = 1 := by
  have hokA : ∀ j ∈ A, (upload_handler j.oracle j.remote remotePath j.fileName
      j.content chunkSizeMB).failed = false :=
    fun j hj => upload_handler_ok j.oracle j.remote remotePath j.fileName
      j.content chunkSizeMB (hA j hj)
  have hokB : ∀ j ∈ B, (upload_handler j.oracle j.remote remotePath j.fileName
      j.content chunkSizeMB).failed = false :=
    fun j hj => upload_handler_ok j.oracle j.remote remotePath j.fileName
      j.content chunkSizeMB (hB j hj)
  have hbadF : (upload_handler bad.oracle bad.remote remotePath bad.fileName
      bad.content chunkSizeMB).failed = true :=
    upload_handler_fail bad.oracle bad.remote remotePath bad.fileName
      bad.content chunkSizeMB hbadTok hbadSes hbadPut hbadContent hmb
  refine ⟨?_, hokA, hokB, hbadF, ?_⟩
  · rw [uploadBatch, List.map_append, List.map_cons]
  · rw [uploadBatch, List.map_append, List.map_cons, List.filter_append]
    have hfA : (A.map (fun j => upload_handler j.oracle j.remote remotePath
        j.fileName j.content chunkSizeMB)).filter HandlerOutcome.failed = [] := by
      rw [List.filter_eq_nil_iff]
      intro o ho
      obtain ⟨j, hj, rfl⟩ := List.mem_map.mp ho
      simp [hokA j hj]
    have hfB : (B.map (fun j => upload_handler j.oracle j.remote remotePath
        j.fileName j.content chunkSizeMB)).filter HandlerOutcome.failed = [] := by
      rw [List.filter_eq_nil_iff]
      intro o ho
      obtain ⟨j, hj, rfl⟩ := List.mem_map.mp ho
      simp [hokB j hj]
    rw [hfA, List.filter_cons_of_pos hbadF, hfB]
    simp

/-- Witness for C9: batch [jobOkA, jobBad, jobOkB] where only jobBad's chunk
PUTs fail. -/
theorem C9_failure_isolation_witness :
    0 < 5 ∧
    (uploadBatch ['d'] 5 ([jobOkA] ++ jobBad :: [jobOkB]) =
      [jobOkA].map (fun j => upload_handler j.oracle j.remote ['d'] j.fileName
          j.content 5) ++
        upload_handler jobBad.oracle jobBad.remote ['d'] jobBad.fileName
          jobBad.content 5 ::
        [jobOkB].map (fun j => upload_handler j.oracle j.remote ['d'] j.fileName
          j.content 5) ∧
    (∀ j ∈ [jobOkA], (upload_handler j.oracle j.remote ['d'] j.fileName
      j.content 5).failed = false) ∧
    (∀ j ∈ [jobOkB], (upload_handler j.oracle j.remote ['d'] j.fileName
      j.content 5).failed = false) ∧
    (upload_handler jobBad.oracle jobBad.remote ['d'] jobBad.fileName
      jobBad.content 5).failed = true ∧
    ((uploadBatch ['d'] 5 ([jobOkA] ++ jobBad :: [jobOkB])).filter
      HandlerOutcome.failed).length = 1) :=
  ⟨by decide,
    C9_failure_isolation ['d'] 5 [jobOkA] [jobOkB] jobBad (by decide)
      (by
        intro j hj
        rw [List.mem_singleton] at hj
        subst hj
        exact ⟨rfl, rfl, fun u => rfl⟩)
      (by
        intro j hj
        rw [List.mem_singleton] at hj
        subst hj
        exact ⟨rfl, rfl, fun u => rfl⟩)
      rfl rfl (fun u => rfl) (by decide)⟩

/-- Claim C10: `ms_graph_util.get_graph_client` evaluates the attribute
`ksau_api.get_remote_credentials` first, and `ksau_api` defines no such name
(nor `RemoteCredentials`), so every call raises AttributeError before any
network request; consequently `retarded_graph.upload_async` on any existing
regular file propagates that error and never creates a session or sends a
chunk. -/
theorem C10_missing_attribute (remote folder : String) (content : List Nat) :
    (get_graph_client remote).1 = Except.error
      "AttributeError: module ksau_py.ksau_api has no attribute get_remote_credentials" ∧
    (get_graph_client remote).2 = [] ∧
    upload_async true true remote folder content =
      (Except.error
        "AttributeError: module ksau_py.ksau_api has no attribute get_remote_credentials",
       []) ∧
    "get_remote_credentials" ∉ ksauApiAttrs ∧ "RemoteCredentials" ∉ ksauApiAttrs := by
  have hmem : "get_remote_credentials" ∉ ksauApiAttrs := by decide
  have hcl : get_graph_client remote = (Except.error
      "AttributeError: module ksau_py.ksau_api has no attribute get_remote_credentials",
      []) := by
    rw [get_graph_client, if_neg hmem]
  refine ⟨by rw [hcl], by rw [hcl], ?_, hmem, by decide⟩
  rw [upload_async]
  simp only [Bool.true_eq_false, if_false, hcl]
